import Mathlib

/-!
Verification of the VoiceChat gateway backend.

Strings from the Python source are modelled as `List Char`; Python
dicts keyed by integers are modelled as association lists; the
request-scoped `asyncio.Event` stop signal is modelled by the abstract
instant (`Option Nat`) at which it becomes set, measured on a logical
clock that advances by one at every `await` (suspension point) of the
worker being modelled.  Each definition carries a doc comment naming
the source function it embeds.
-/

namespace VoiceChat

/-! ## Sentence splitter — `backend/pipeline/helpers.py` -/

/-- Finds the first occurrence of `delim` in `buf`, in the sense of
Python's substring search: returns `some (pre, post)` with
`buf = pre ++ delim ++ post` and `pre` the shortest such prefix, or
`none` when `delim` does not occur (the source never splits on an
empty delimiter; an empty `delim` is mapped to `none`). -/
def splitFirst (delim : List Char) : List Char → Option (List Char × List Char)
  | [] => none
  | c :: cs =>
    if delim ≠ [] ∧ delim.isPrefixOf (c :: cs) then
      some ([], (c :: cs).drop delim.length)
    else
      match splitFirst delim cs with
      | none => none
      | some (pre, post) => some (c :: pre, post)

/-- Fuel-bounded worker for `pySplit`; with `buf.length ≤ fuel` it cuts
`buf` at every (non-overlapping, left-to-right) occurrence of `delim`,
exactly as Python's `buf.split(delim)` does. -/
def pySplitF (delim : List Char) : Nat → List Char → List (List Char)
  | 0, buf => [buf]
  | fuel + 1, buf =>
    match splitFirst delim buf with
    | none => [buf]
    | some (pre, post) => pre :: pySplitF delim fuel post

/-- Python's `buf.split(delim)` for a non-empty `delim` (helpers.py
line 51).  `buf.length` steps of fuel always suffice because every cut
consumes at least one character of the buffer. -/
def pySplit (delim buf : List Char) : List (List Char) :=
  pySplitF delim buf.length buf

/-- The boundary markers of `extract_sentences`, in source priority
order: `". "`, `"! "`, `"? "`, `"\n"` (helpers.py line 49). -/
def sentenceDelims : List (List Char) :=
  [['.', ' '], ['!', ' '], ['?', ' '], ['\n']]

/-- Python's `delim in buf` substring test (helpers.py line 50). -/
def containsDelim (delim buf : List Char) : Bool :=
  (splitFirst delim buf).isSome

/-- `extract_sentences` (helpers.py lines 47-53): for the first
boundary marker (in priority order) occurring in `buf`, split at every
occurrence of that marker, re-attach the marker to each emitted
sentence, and return the final part as the remainder; when no marker
occurs, emit nothing and keep the whole buffer. -/
def extract_sentences (buf : List Char) : List (List Char) × List Char :=
  match sentenceDelims.find? (fun d => containsDelim d buf) with
  | some d =>
    let parts := pySplit d buf
    (parts.dropLast.map (fun p => p ++ d), parts.getLastD [])
  | none => ([], buf)

/-- One iteration of the token-consumption loop of `run_llm_pipeline`
(llm.py lines 101-103), restricted to its buffer bookkeeping: the
incoming token is appended to the sentence buffer, then every completed
sentence is extracted; the state is `(sentences emitted so far, buffer)`. -/
def streamStep (acc : List (List Char) × List Char) (tok : List Char) :
    List (List Char) × List Char :=
  let step := extract_sentences (acc.2 ++ tok)
  (acc.1 ++ step.1, step.2)

/-- The whole token-consumption loop of `run_llm_pipeline` (llm.py
lines 95-110) over a finished token stream, starting from an empty
buffer. -/
def streamSplit (tokens : List (List Char)) : List (List Char) × List Char :=
  tokens.foldl streamStep ([], [])

/-! ### Splitter lemmas -/

theorem splitFirst_eq_append {delim buf pre post : List Char}
    (h : splitFirst delim buf = some (pre, post)) :
    buf = pre ++ delim ++ post ∧ post.length < buf.length := by
  induction buf generalizing pre with
  | nil => simp [splitFirst] at h
  | cons c cs ih =>
    rw [splitFirst] at h
    by_cases hp : delim ≠ [] ∧ delim.isPrefixOf (c :: cs)
    · rw [if_pos hp] at h
      obtain ⟨hne, hpre⟩ := hp
      obtain ⟨t, ht⟩ := List.isPrefixOf_iff_prefix.mp hpre
      injection h with h1
      injection h1 with hpre' hpost'
      subst hpre' hpost'
      have hd : 0 < delim.length := List.length_pos.mpr hne
      constructor
      · rw [List.nil_append, ← ht, List.drop_left]
      · rw [← ht, List.drop_left, List.length_append]
        omega
    · rw [if_neg hp] at h
      cases hrec : splitFirst delim cs with
      | none => rw [hrec] at h; exact absurd h (by simp)
      | some pr =>
        obtain ⟨pre', post'⟩ := pr
        rw [hrec] at h
        injection h with h1
        injection h1 with hpre' hpost'
        subst hpost'
        obtain ⟨heq, hlt⟩ := ih hrec
        subst hpre'
        constructor
        · simp [heq]
        · simp only [List.length_cons]; omega

theorem splitFirst_none_not_infix {delim buf : List Char}
    (h : splitFirst delim buf = none) (hne : delim ≠ []) :
    ¬ delim <:+: buf := by
  induction buf with
  | nil =>
    intro hinf
    exact hne (List.eq_nil_of_infix_nil hinf)
  | cons c cs ih =>
    rw [splitFirst] at h
    by_cases hp : delim ≠ [] ∧ delim.isPrefixOf (c :: cs)
    · rw [if_pos hp] at h; exact absurd h (by simp)
    · rw [if_neg hp] at h
      intro hinf
      rcases List.infix_cons_iff.mp hinf with hpre | hinf'
      · exact hp ⟨hne, List.isPrefixOf_iff_prefix.mpr hpre⟩
      · cases hrec : splitFirst delim cs with
        | none => exact ih hrec hinf'
        | some pr =>
          obtain ⟨pre', post'⟩ := pr
          rw [hrec] at h
          exact absurd h (by simp)

theorem pySplitF_ne_nil (delim : List Char) (fuel : Nat) (buf : List Char) :
    pySplitF delim fuel buf ≠ [] := by
  cases fuel with
  | zero => simp [pySplitF]
  | succ n =>
    rw [pySplitF]
    cases h : splitFirst delim buf with
    | none => simp
    | some pr => obtain ⟨pre, post⟩ := pr; simp

/-- Concatenation identity for the fuel-bounded split: re-attaching
the delimiter to every part but the last and appending the last part
reconstructs the input. -/
theorem pySplitF_concat (delim : List Char) (fuel : Nat) (buf : List Char)
    (hf : buf.length ≤ fuel) :
    ((pySplitF delim fuel buf).dropLast.map (fun p => p ++ delim)).flatten
        ++ (pySplitF delim fuel buf).getLastD [] = buf := by
  induction fuel generalizing buf with
  | zero =>
    have : buf = [] := List.eq_nil_of_length_eq_zero (Nat.le_zero.mp hf)
    subst this
    simp [pySplitF]
  | succ n ih =>
    rw [pySplitF]
    cases h : splitFirst delim buf with
    | none => simp
    | some pr =>
      obtain ⟨pre, post⟩ := pr
      obtain ⟨heq, hlt⟩ := splitFirst_eq_append h
      have hrec := ih post (by omega)
      cases hps : pySplitF delim n post with
      | nil => exact absurd hps (pySplitF_ne_nil delim n post)
      | cons r rs =>
        rw [hps] at hrec
        simp only [hps, List.dropLast_cons₂, List.map_cons, List.flatten_cons,
          List.getLastD_cons, List.append_assoc] at hrec ⊢
        rw [hrec, heq]
        simp [List.append_assoc]

/-- The last part produced by the split contains no further occurrence
of the delimiter. -/
theorem pySplitF_getLast_no_occurrence (delim : List Char) (fuel : Nat)
    (buf : List Char) (hf : buf.length ≤ fuel) :
    splitFirst delim ((pySplitF delim fuel buf).getLastD []) = none := by
  induction fuel generalizing buf with
  | zero =>
    have : buf = [] := List.eq_nil_of_length_eq_zero (Nat.le_zero.mp hf)
    subst this
    cases delim <;> simp [pySplitF, splitFirst]
  | succ n ih =>
    rw [pySplitF]
    cases h : splitFirst delim buf with
    | none => simpa using h
    | some pr =>
      obtain ⟨pre, post⟩ := pr
      obtain ⟨heq, hlt⟩ := splitFirst_eq_append h
      have hrec := ih post (by omega)
      cases hps : pySplitF delim n post with
      | nil => exact absurd hps (pySplitF_ne_nil delim n post)
      | cons r rs =>
        simp only [hps, List.getLastD_cons] at hrec ⊢
        exact hrec

/-- Single-call concatenation identity for `extract_sentences`. -/
theorem extract_sentences_concat (buf : List Char) :
    ((extract_sentences buf).1).flatten ++ (extract_sentences buf).2 = buf := by
  rw [extract_sentences]
  cases h : sentenceDelims.find? (fun d => containsDelim d buf) with
  | none => simp
  | some d => simpa using pySplitF_concat d buf.length buf (Nat.le_refl _)

/-- Every delimiter in the source's priority list is non-empty. -/
theorem sentenceDelims_ne_nil : ∀ d ∈ sentenceDelims, d ≠ [] := by decide

/-- Invariant of the token loop: joining the emitted sentences with the
current buffer reconstructs everything fed in so far. -/
theorem streamStep_foldl (tokens : List (List Char)) :
    ∀ (acc : List (List Char)) (buf : List Char),
    (tokens.foldl streamStep (acc, buf)).1.flatten
        ++ (tokens.foldl streamStep (acc, buf)).2
      = acc.flatten ++ (buf ++ tokens.flatten) := by
  induction tokens with
  | nil => intro acc buf; simp
  | cons t ts ih =>
    intro acc buf
    rw [List.foldl_cons]
    have hc := extract_sentences_concat (buf ++ t)
    have hstep :
        (extract_sentences (buf ++ t)).1.flatten
            ++ ((extract_sentences (buf ++ t)).2 ++ ts.flatten)
          = (buf ++ t) ++ ts.flatten := by
      rw [← List.append_assoc, hc]
    simp only [streamStep, ih, List.flatten_append, List.flatten_cons,
      List.append_assoc, hstep]

/-- C7: concatenating (in order) the sentences emitted by
`extract_sentences` with the returned remainder yields exactly the
input buffer; consequently, for any token stream fed through the
splitter loop of `run_llm_pipeline`, the concatenation of all emitted
sentences followed by the final remainder (which the loop flushes as a
last sentence) equals the concatenation of all tokens. -/
theorem C7_splitter_round_trip :
    (∀ buf : List Char,
      ((extract_sentences buf).1).flatten ++ (extract_sentences buf).2 = buf) ∧
    (∀ tokens : List (List Char),
      ((streamSplit tokens).1).flatten ++ (streamSplit tokens).2
        = tokens.flatten) := by
  refine ⟨extract_sentences_concat, fun tokens => ?_⟩
  rw [streamSplit]
  simpa using streamStep_foldl tokens [] []

/-- C6 counterexample: a single call on the buffer `"A. B! C"` splits
only at the highest-priority marker `". "` that occurs; the returned
remainder `"B! C"` still contains the boundary marker `"! "`,
contradicting the claim that the remainder contains no boundary
marker. -/
theorem C6_counterexample :
    extract_sentences ("A. B! C".toList)
        = ([("A. ".toList)], ("B! C".toList)) ∧
    ("! ".toList) <:+: (extract_sentences ("A. B! C".toList)).2 :=
  ⟨by decide, ⟨['B'], ['C'], by decide⟩⟩

/-- C6 (amended): a single call to `extract_sentences` splits only at
the first boundary marker, in priority order, that occurs in the
buffer; it extracts every prefix ending at an occurrence of that one
marker (each emitted sentence ends with it, and their concatenation
with the remainder restores the buffer), and the remainder contains no
further occurrence of that marker — though it may still contain
lower-priority markers. -/
theorem C6_extract_splits_at_first_marker (buf d : List Char)
    (hd : sentenceDelims.find? (fun x => containsDelim x buf) = some d) :
    (∀ s ∈ (extract_sentences buf).1, ∃ p, s = p ++ d) ∧
    ¬ d <:+: (extract_sentences buf).2 ∧
    ((extract_sentences buf).1).flatten ++ (extract_sentences buf).2 = buf := by
  have hmem : d ∈ sentenceDelims := List.mem_of_find?_eq_some hd
  have hne : d ≠ [] := sentenceDelims_ne_nil d hmem
  refine ⟨?_, ?_, extract_sentences_concat buf⟩
  · intro s hs
    rw [extract_sentences] at hs
    simp only [hd, List.mem_map] at hs
    obtain ⟨p, _, hp⟩ := hs
    exact ⟨p, hp.symm⟩
  · rw [extract_sentences]
    simp only [hd]
    exact splitFirst_none_not_infix
      (pySplitF_getLast_no_occurrence d buf.length buf (Nat.le_refl _)) hne

/-- Witness for C6 (amended) at the concrete buffer `"A. B! C"`, whose
first occurring marker is `". "`. -/
theorem C6_extract_splits_at_first_marker_witness :
    (sentenceDelims.find?
        (fun x => containsDelim x ("A. B! C".toList)) = some (". ".toList)) ∧
    ((∀ s ∈ (extract_sentences ("A. B! C".toList)).1,
        ∃ p, s = p ++ (". ".toList)) ∧
      ¬ (". ".toList) <:+: (extract_sentences ("A. B! C".toList)).2 ∧
      ((extract_sentences ("A. B! C".toList)).1).flatten
          ++ (extract_sentences ("A. B! C".toList)).2 = ("A. B! C".toList)) :=
  ⟨by decide,
    C6_extract_splits_at_first_marker ("A. B! C".toList) (". ".toList)
      (by decide)⟩

/-! ## Ordering gate — `backend/pipeline/tts.py`, `run_ordering_worker`

The worker's concurrency is modelled by a logical clock: each `await`
(queue read, websocket send) advances the clock by one, and the stop
event is described by the instant `stopAt` at which it becomes set
(`none`: never).  A stop check reads the clock of the moment it runs;
a send carries the clock of the moment it is initiated. -/

/-- One item on the ordering worker's results queue. `dispatch_tts`
(tts.py line 22) puts `(num, text, audio_b64, words)`;
`run_llm_pipeline` (llm.py line 118) posts the sentinel.  The payload
`(text, audio, words)` never influences control flow and is abstracted
as `α`. -/
inductive QItem (α : Type) where
  | result (num : Nat) (payload : α)
  | sentinel
deriving DecidableEq

/-- An emitted `audio_chunk`, tagged with the logical instant at which
its `send_audio_chunk` call was initiated. -/
structure Chunk (α : Type) where
  num : Nat
  payload : α
  clock : Nat
deriving DecidableEq

/-- Whether the stop event is set at instant `c`, when it becomes set
at instant `stopAt` (`none`: never). -/
def stopped (stopAt : Option Nat) (c : Nat) : Bool :=
  match stopAt with
  | none => false
  | some t => decide (t ≤ c)

/-- State of `run_ordering_worker` (tts.py lines 33-36), plus the
logical clock.  `pending` is the Python dict as an association list. -/
structure GateState (α : Type) where
  pending : List (Nat × α)
  next_to_emit : Nat
  filler_emitted : Bool
  first_real_arrived : Bool
  clock : Nat
deriving DecidableEq

/-- Initial state of the worker (tts.py lines 33-36). -/
def initGate (α : Type) : GateState α :=
  ⟨[], 1, false, false, 0⟩

/-- Python dict lookup (`key in d`, `d[key]`). -/
def plookup {κ : Type} [DecidableEq κ] (n : κ) : List (κ × α) → Option α
  | [] => none
  | e :: t => if e.1 = n then some e.2 else plookup n t

/-- Python dict key removal (`d.pop(key)`). -/
def perase {κ : Type} [DecidableEq κ] (n : κ) : List (κ × α) → List (κ × α)
  | [] => []
  | e :: t => if e.1 = n then perase n t else e :: perase n t

/-- Python dict assignment (`d[key] = value`). -/
def pinsert {κ : Type} [DecidableEq κ] (n : κ) (v : α) (l : List (κ × α)) :
    List (κ × α) :=
  (n, v) :: perase n l

/-- The inner emission loop of `run_ordering_worker` (tts.py lines
61-66): while the next expected number is pending, re-check the stop
event (no suspension separates this check from the send) and emit.
`fuel` bounds the iterations; `pending.length` always suffices because
each emission removes one entry.  Returns the emitted chunks and
`some` final state, or `none` when the stop check made the worker
return. -/
def emitLoop (stopAt : Option Nat) :
    Nat → GateState α → List (Chunk α) × Option (GateState α)
  | 0, s => ([], some s)
  | fuel + 1, s =>
    match plookup s.next_to_emit s.pending with
    | none => ([], some s)
    | some v =>
      if stopped stopAt s.clock then ([], none)
      else
        let rest := emitLoop stopAt fuel
          { s with pending := perase s.next_to_emit s.pending,
                   next_to_emit := s.next_to_emit + 1,
                   clock := s.clock + 1 }
        (⟨s.next_to_emit, v, s.clock⟩ :: rest.1, rest.2)

/-- One iteration of the main loop of `run_ordering_worker` (tts.py
lines 38-66) consuming one queue item: the loop-top stop check at the
current instant, the `await` of the queue read (clock advances by one
before the item is processed), then the sentinel / filler /
real-sentence cases.  Returns the chunks emitted during the iteration
and `some` next state, or `none` when the worker returned. -/
def gateStep (stopAt : Option Nat) (s : GateState α) (e : QItem α) :
    List (Chunk α) × Option (GateState α) :=
  if stopped stopAt s.clock then ([], none)
  else
    let c := s.clock + 1
    match e with
    | QItem.sentinel => ([], none)
    | QItem.result num v =>
      if num = 0 then
        if s.first_real_arrived = false ∧ s.filler_emitted = false then
          ([⟨0, v, c⟩], some { s with filler_emitted := true, clock := c + 1 })
        else ([], some { s with clock := c })
      else
        let s1 := { s with
          first_real_arrived := if num = 1 then true else s.first_real_arrived,
          pending := pinsert num v s.pending,
          clock := c }
        emitLoop stopAt s1.pending.length s1

/-- The chunks emitted by the worker over a finite queue trace
starting from state `s`.  (The worker additionally re-polls on 0.1 s
`wait_for` timeouts, which only re-run the loop-top stop check and
emit nothing; those iterations are not modelled.) -/
def runGateAux (stopAt : Option Nat) (s : GateState α) :
    List (QItem α) → List (Chunk α)
  | [] => []
  | e :: es =>
    match gateStep stopAt s e with
    | (out, none) => out
    | (out, some s') => out ++ runGateAux stopAt s' es

/-- The chunks emitted by one run of `run_ordering_worker` over a
queue trace. -/
def runGate (stopAt : Option Nat) (evts : List (QItem α)) : List (Chunk α) :=
  runGateAux stopAt (initGate α) evts

/-- State evolution of the worker; `none` once the worker returned. -/
def runGateState (stopAt : Option Nat) :
    Option (GateState α) → List (QItem α) → Option (GateState α)
  | os, [] => os
  | none, _ :: _ => none
  | some s, e :: es => runGateState stopAt (gateStep stopAt s e).2 es

/-! ### Association-list lemmas -/

theorem plookup_perase_self {κ : Type} [DecidableEq κ] (n : κ)
    (l : List (κ × α)) :
    plookup n (perase n l) = none := by
  induction l with
  | nil => rfl
  | cons e t ih =>
    rw [perase]
    by_cases he : e.1 = n
    · rw [if_pos he]; exact ih
    · rw [if_neg he, plookup, if_neg he]; exact ih

theorem plookup_perase_ne {κ : Type} [DecidableEq κ] {m n : κ} (h : m ≠ n)
    (l : List (κ × α)) :
    plookup m (perase n l) = plookup m l := by
  induction l with
  | nil => rfl
  | cons e t ih =>
    rw [perase, plookup]
    by_cases he : e.1 = n
    · rw [if_pos he, if_neg (by rw [he]; exact fun hc => h hc.symm)]
      exact ih
    · rw [if_neg he, plookup]
      by_cases hm : e.1 = m
      · rw [if_pos hm, if_pos hm]
      · rw [if_neg hm, if_neg hm]; exact ih

theorem plookup_perase_ne_none {κ : Type} [DecidableEq κ] {m n : κ}
    (l : List (κ × α))
    (h : plookup m (perase n l) ≠ none) : plookup m l ≠ none := by
  by_cases hmn : m = n
  · subst hmn; rw [plookup_perase_self] at h; exact absurd rfl h
  · rwa [plookup_perase_ne hmn] at h

theorem perase_length_le {κ : Type} [DecidableEq κ] (n : κ)
    (l : List (κ × α)) :
    (perase n l).length ≤ l.length := by
  induction l with
  | nil => exact Nat.le_refl _
  | cons e t ih =>
    rw [perase]
    by_cases he : e.1 = n
    · rw [if_pos he]; exact Nat.le_succ_of_le ih
    · rw [if_neg he]; exact Nat.succ_le_succ ih

theorem perase_length_lt {κ : Type} [DecidableEq κ] {n : κ}
    {l : List (κ × α)} {v : α}
    (h : plookup n l = some v) : (perase n l).length < l.length := by
  induction l with
  | nil => simp [plookup] at h
  | cons e t ih =>
    rw [perase]
    rw [plookup] at h
    by_cases he : e.1 = n
    · rw [if_pos he]
      exact Nat.lt_succ_of_le (perase_length_le n t)
    · rw [if_neg he] at h
      rw [if_neg he, List.length_cons, List.length_cons]
      exact Nat.succ_lt_succ (ih h)

theorem plookup_pinsert {κ : Type} [DecidableEq κ] (m n : κ) (v : α)
    (l : List (κ × α)) :
    plookup m (pinsert n v l) = if n = m then some v else plookup m l := by
  rw [pinsert, plookup]
  by_cases h : n = m
  · rw [if_pos h, if_pos h]
  · rw [if_neg h, if_neg h, plookup_perase_ne (fun hc => h hc.symm)]

/-! ### Emission-loop lemmas -/

/-- The inner loop emits a contiguous run of sequence numbers starting
at the cursor, advances the cursor by exactly that run, touches no
flag, leaves no in-order entry pending on normal exit, and only ever
removes entries from `pending`. -/
theorem emitLoop_spec (stopAt : Option Nat) :
    ∀ (fuel : Nat) (s : GateState α), s.pending.length ≤ fuel →
    ∃ j, (emitLoop stopAt fuel s).1.map Chunk.num
            = List.range' s.next_to_emit j ∧
      ((emitLoop stopAt fuel s).2 = none ∨
        ∃ s', (emitLoop stopAt fuel s).2 = some s' ∧
          s'.next_to_emit = s.next_to_emit + j ∧
          s'.filler_emitted = s.filler_emitted ∧
          s'.first_real_arrived = s.first_real_arrived ∧
          plookup s'.next_to_emit s'.pending = none ∧
          (∀ m, plookup m s'.pending ≠ none → plookup m s.pending ≠ none)) := by
  intro fuel
  induction fuel with
  | zero =>
    intro s hs
    have hnil : s.pending = [] :=
      List.eq_nil_of_length_eq_zero (Nat.le_zero.mp hs)
    exact ⟨0, by simp [emitLoop],
      Or.inr ⟨s, rfl, rfl, rfl, rfl, by rw [hnil]; rfl, fun m hm => hm⟩⟩
  | succ n ih =>
    intro s hs
    rw [emitLoop]
    cases hl : plookup s.next_to_emit s.pending with
    | none =>
      exact ⟨0, by simp, Or.inr ⟨s, rfl, rfl, rfl, rfl, hl, fun m hm => hm⟩⟩
    | some v =>
      dsimp only
      by_cases hstop : stopped stopAt s.clock
      · rw [if_pos hstop]
        exact ⟨0, by simp, Or.inl rfl⟩
      · rw [if_neg hstop]
        dsimp only
        have hlen : (perase s.next_to_emit s.pending).length ≤ n := by
          have := perase_length_lt (l := s.pending) hl
          omega
        obtain ⟨j, hmap, hrest⟩ := ih
          { s with pending := perase s.next_to_emit s.pending,
                   next_to_emit := s.next_to_emit + 1,
                   clock := s.clock + 1 } hlen
        refine ⟨j + 1, ?_, ?_⟩
        · rw [List.map_cons, hmap, List.range'_succ]
        · rcases hrest with hnone | ⟨s', hs', hnext, hfil, hfr, hlook, hmono⟩
          · exact Or.inl hnone
          · dsimp only at hnext hfil hfr
            refine Or.inr ⟨s', hs', by omega, hfil, hfr, hlook,
              fun m hm => ?_⟩
            exact plookup_perase_ne_none _ (hmono m hm)

/-- Every chunk emitted by the inner loop was sent at an instant at
which the stop event was (still) unset: the loop re-checks the stop
event immediately before each send, with no suspension in between. -/
theorem emitLoop_chunks_not_stopped (stopAt : Option Nat) :
    ∀ (fuel : Nat) (s : GateState α) (ch : Chunk α),
      ch ∈ (emitLoop stopAt fuel s).1 → stopped stopAt ch.clock = false := by
  intro fuel
  induction fuel with
  | zero => intro s ch h; simp [emitLoop] at h
  | succ n ih =>
    intro s ch h
    rw [emitLoop] at h
    cases hl : plookup s.next_to_emit s.pending with
    | none => rw [hl] at h; simp at h
    | some v =>
      rw [hl] at h
      dsimp only at h
      by_cases hstop : stopped stopAt s.clock
      · rw [if_pos hstop] at h; simp at h
      · rw [if_neg hstop] at h
        dsimp only at h
        rcases List.mem_cons.mp h with hc | hc
        · subst hc
          simpa using hstop
        · exact ih _ ch hc

/-- Every chunk emitted by the inner loop carries a sequence number
that was present in `pending` when the loop started. -/
theorem emitLoop_chunks_mem_pending (stopAt : Option Nat) :
    ∀ (fuel : Nat) (s : GateState α) (ch : Chunk α),
      ch ∈ (emitLoop stopAt fuel s).1 → plookup ch.num s.pending ≠ none := by
  intro fuel
  induction fuel with
  | zero => intro s ch h; simp [emitLoop] at h
  | succ n ih =>
    intro s ch h
    rw [emitLoop] at h
    cases hl : plookup s.next_to_emit s.pending with
    | none => rw [hl] at h; simp at h
    | some v =>
      rw [hl] at h
      dsimp only at h
      by_cases hstop : stopped stopAt s.clock
      · rw [if_pos hstop] at h; simp at h
      · rw [if_neg hstop] at h
        dsimp only at h
        rcases List.mem_cons.mp h with hc | hc
        · subst hc
          rw [hl]; exact fun hc => absurd hc (by simp)
        · exact plookup_perase_ne_none _ (ih _ ch hc)

/-- With the stop event never set, the inner loop cannot make the
worker return. -/
theorem emitLoop_none_stop (a : Option Nat) (ha : a = none) :
    ∀ (fuel : Nat) (s : GateState α), (emitLoop a fuel s).2 ≠ none := by
  intro fuel
  induction fuel with
  | zero => intro s; simp [emitLoop]
  | succ n ih =>
    intro s
    rw [emitLoop]
    cases hl : plookup s.next_to_emit s.pending with
    | none => simp
    | some v =>
      dsimp only
      have hstop : stopped a s.clock = false := by rw [ha]; rfl
      rw [if_neg (by simp [hstop])]
      dsimp only
      exact ih _

/-! ### Main-loop lemmas -/

/-- Reachability invariant of the main loop: before the first real
sentence has arrived, the cursor is still at 1 and no entry with key 1
is pending. -/
def GateInv (s : GateState α) : Prop :=
  s.first_real_arrived = false →
    s.next_to_emit = 1 ∧ plookup 1 s.pending = none

/-- Equation lemma: when the stop event is already set at the loop-top
check, the worker returns without consuming the item. -/
theorem gateStep_stopped {stopAt : Option Nat} {s : GateState α}
    (h : stopped stopAt s.clock = true) (e : QItem α) :
    gateStep stopAt s e = ([], none) := by
  rw [gateStep, if_pos h]

/-- Equation lemma: the sentinel makes the worker return at once. -/
theorem gateStep_sentinel_eq {stopAt : Option Nat} {s : GateState α}
    (h : stopped stopAt s.clock = false) :
    gateStep stopAt s (QItem.sentinel (α := α)) = ([], none) := by
  rw [gateStep, if_neg (by simp [h])]

/-- Equation lemma: a filler result is emitted when no real sentence
has arrived and no filler was emitted yet (tts.py lines 51-55). -/
theorem gateStep_filler_emit {stopAt : Option Nat} {s : GateState α} {v : α}
    (h : stopped stopAt s.clock = false)
    (hc : s.first_real_arrived = false ∧ s.filler_emitted = false) :
    gateStep stopAt s (QItem.result 0 v)
      = ([⟨0, v, s.clock + 1⟩],
          some { s with filler_emitted := true, clock := s.clock + 1 + 1 }) := by
  rw [gateStep, if_neg (by simp [h])]
  dsimp only
  rw [if_pos rfl, if_pos hc]

/-- Equation lemma: a filler result is silently discarded otherwise
(tts.py line 55, the bare `continue`). -/
theorem gateStep_filler_skip {stopAt : Option Nat} {s : GateState α} {v : α}
    (h : stopped stopAt s.clock = false)
    (hc : ¬ (s.first_real_arrived = false ∧ s.filler_emitted = false)) :
    gateStep stopAt s (QItem.result 0 v)
      = ([], some { s with clock := s.clock + 1 }) := by
  rw [gateStep, if_neg (by simp [h])]
  dsimp only
  rw [if_pos rfl, if_neg hc]

/-- Equation lemma: a real result is inserted into `pending` and the
inner emission loop runs (tts.py lines 57-66). -/
theorem gateStep_real {stopAt : Option Nat} {s : GateState α} {num : Nat}
    {v : α} (h : stopped stopAt s.clock = false) (hnum : num ≠ 0) :
    gateStep stopAt s (QItem.result num v)
      = emitLoop stopAt (pinsert num v s.pending).length
          { s with
            first_real_arrived := if num = 1 then true else s.first_real_arrived,
            pending := pinsert num v s.pending,
            clock := s.clock + 1 } := by
  rw [gateStep, if_neg (by simp [h])]
  dsimp only
  rw [if_neg hnum]

/-- Equation lemma for the trace when the step returns. -/
theorem runGateAux_cons_none {stopAt : Option Nat} {s : GateState α}
    {e : QItem α} {out : List (Chunk α)} (es : List (QItem α))
    (h : gateStep stopAt s e = (out, none)) :
    runGateAux stopAt s (e :: es) = out := by
  rw [runGateAux, h]

/-- Equation lemma for the trace when the step continues. -/
theorem runGateAux_cons_some {stopAt : Option Nat} {s s' : GateState α}
    {e : QItem α} {out : List (Chunk α)} (es : List (QItem α))
    (h : gateStep stopAt s e = (out, some s')) :
    runGateAux stopAt s (e :: es) = out ++ runGateAux stopAt s' es := by
  rw [runGateAux, h]

/-- Shape of the worker's output from any state satisfying the
invariant: the emitted sequence numbers form a contiguous ascending
run starting at the cursor, possibly preceded by a single `0` when
neither a filler was emitted nor the first real sentence arrived
before this point. -/
theorem runGateAux_map_num (stopAt : Option Nat) :
    ∀ (evts : List (QItem α)) (s : GateState α), GateInv s →
    ∃ m, (runGateAux stopAt s evts).map Chunk.num
            = List.range' s.next_to_emit m ∨
      (s.filler_emitted = false ∧ s.first_real_arrived = false ∧
        (runGateAux stopAt s evts).map Chunk.num
          = 0 :: List.range' s.next_to_emit m) := by
  intro evts
  induction evts with
  | nil =>
    intro s hInv
    exact ⟨0, Or.inl (by simp [runGateAux])⟩
  | cons e es ih =>
    intro s hInv
    by_cases hstop : stopped stopAt s.clock
    · rw [runGateAux_cons_none es (gateStep_stopped hstop e)]
      exact ⟨0, Or.inl (by simp)⟩
    · have hstop' : stopped stopAt s.clock = false := by simpa using hstop
      cases e with
      | sentinel =>
        rw [runGateAux_cons_none es (gateStep_sentinel_eq hstop')]
        exact ⟨0, Or.inl (by simp)⟩
      | result num v =>
        by_cases hnum : num = 0
        · subst hnum
          by_cases hcond :
              s.first_real_arrived = false ∧ s.filler_emitted = false
          · rw [runGateAux_cons_some es (gateStep_filler_emit hstop' hcond)]
            obtain ⟨m, hm⟩ := ih
              { s with filler_emitted := true, clock := s.clock + 1 + 1 }
              (fun hfr => hInv hfr)
            rcases hm with h1 | ⟨hfe, _, _⟩
            · exact ⟨m, Or.inr ⟨hcond.2, hcond.1, by simpa using h1⟩⟩
            · exact absurd hfe (by simp)
          · rw [runGateAux_cons_some es (gateStep_filler_skip hstop' hcond)]
            obtain ⟨m, hm⟩ := ih { s with clock := s.clock + 1 }
              (fun hfr => hInv hfr)
            rcases hm with h1 | ⟨hfe, hfr, h2⟩
            · exact ⟨m, Or.inl (by simpa using h1)⟩
            · exact ⟨m, Or.inr ⟨hfe, hfr, by simpa using h2⟩⟩
        · obtain ⟨s1, hs1⟩ : ∃ s1 : GateState α, s1 = { s with
              first_real_arrived :=
                if num = 1 then true else s.first_real_arrived,
              pending := pinsert num v s.pending,
              clock := s.clock + 1 } := ⟨_, rfl⟩
          have hgs : gateStep stopAt s (QItem.result num v)
              = emitLoop stopAt s1.pending.length s1 := by
            rw [gateStep_real hstop' hnum, hs1]
          have hnext1 : s1.next_to_emit = s.next_to_emit := by rw [hs1]
          have hfil1 : s1.filler_emitted = s.filler_emitted := by rw [hs1]
          have hfr1 : s1.first_real_arrived
              = if num = 1 then true else s.first_real_arrived := by rw [hs1]
          have hpend1 : s1.pending = pinsert num v s.pending := by rw [hs1]
          obtain ⟨j, hmap, hrest⟩ :=
            emitLoop_spec stopAt s1.pending.length s1 (Nat.le_refl _)
          cases hout : emitLoop stopAt s1.pending.length s1 with
          | mk out ost =>
            rw [hout] at hmap hrest
            cases ost with
            | none =>
              rw [runGateAux_cons_none es (by rw [hgs, hout])]
              exact ⟨j, Or.inl (by rw [hmap, hnext1])⟩
            | some s' =>
              rcases hrest with hcontra | ⟨t, ht, hnext, hfil, hfr, hlook, hmono⟩
              · exact absurd hcontra (by simp)
              · have hts : s' = t := by simpa using ht
                subst hts
                rw [runGateAux_cons_some es (by rw [hgs, hout])]
                have hside : s1.first_real_arrived = false →
                    num ≠ 1 ∧ s.first_real_arrived = false ∧ j = 0 ∧
                    plookup 1 s1.pending = none ∧ s.next_to_emit = 1 := by
                  intro hfrs1
                  have hnum1 : num ≠ 1 := by
                    intro hc
                    rw [hfr1, if_pos hc] at hfrs1
                    simp at hfrs1
                  have hsfr : s.first_real_arrived = false := by
                    rw [hfr1, if_neg hnum1] at hfrs1
                    exact hfrs1
                  obtain ⟨hone, hlook1⟩ := hInv hsfr
                  have hlook1' : plookup 1 s1.pending = none := by
                    rw [hpend1, plookup_pinsert, if_neg hnum1]
                    exact hlook1
                  have hj0 : j = 0 := by
                    by_contra hj
                    have h1mem : (1 : Nat) ∈ out.map Chunk.num := by
                      rw [hmap, hnext1, hone]
                      exact List.mem_range'_1.mpr ⟨Nat.le_refl 1, by omega⟩
                    obtain ⟨ch, hch, hchn⟩ := List.mem_map.mp h1mem
                    have hmem := emitLoop_chunks_mem_pending stopAt
                      s1.pending.length s1 ch (by rw [hout]; exact hch)
                    rw [hchn] at hmem
                    exact hmem hlook1'
                  exact ⟨hnum1, hsfr, hj0, hlook1', hone⟩
                have hInv' : GateInv s' := by
                  intro hfr'
                  obtain ⟨hnum1, hsfr, hj0, hlook1', hone⟩ :=
                    hside (by rw [← hfr]; exact hfr')
                  refine ⟨by rw [hnext, hj0, hnext1, hone], ?_⟩
                  by_contra hlk
                  exact (hmono 1 hlk) hlook1'
                obtain ⟨m, hm⟩ := ih s' hInv'
                rcases hm with h1 | ⟨hfe', hfr', h2⟩
                · refine ⟨m + j, Or.inl ?_⟩
                  rw [List.map_append, hmap, h1, hnext, hnext1]
                  exact List.range'_append_1 s.next_to_emit j m
                · obtain ⟨hnum1, hsfr, hj0, hlook1', hone⟩ :=
                    hside (by rw [← hfr]; exact hfr')
                  have hout0 : out = [] := by
                    rw [hj0] at hmap
                    simpa using hmap
                  refine ⟨m, Or.inr ⟨?_, hsfr, ?_⟩⟩
                  · rw [← hfil1, ← hfil]
                    exact hfe'
                  · rw [hout0, List.nil_append, h2, hnext, hj0, hnext1]
                    simp

/-- Every real-sentence chunk (sequence number at least 1) is sent at
an instant at which the stop event is unset: the inner loop re-checks
the stop event immediately before each such send. -/
theorem runGateAux_real_not_stopped (stopAt : Option Nat) :
    ∀ (evts : List (QItem α)) (s : GateState α) (ch : Chunk α),
      ch ∈ runGateAux stopAt s evts → 1 ≤ ch.num →
      stopped stopAt ch.clock = false := by
  intro evts
  induction evts with
  | nil => intro s ch hch; simp [runGateAux] at hch
  | cons e es ih =>
    intro s ch hch hnum
    by_cases hstop : stopped stopAt s.clock
    · rw [runGateAux_cons_none es (gateStep_stopped hstop e)] at hch
      simp at hch
    · have hstop' : stopped stopAt s.clock = false := by simpa using hstop
      cases e with
      | sentinel =>
        rw [runGateAux_cons_none es (gateStep_sentinel_eq hstop')] at hch
        simp at hch
      | result n v =>
        by_cases hn : n = 0
        · subst hn
          by_cases hcond :
              s.first_real_arrived = false ∧ s.filler_emitted = false
          · rw [runGateAux_cons_some es
              (gateStep_filler_emit hstop' hcond)] at hch
            rcases List.mem_cons.mp hch with hc | hc
            · subst hc; simp at hnum
            · exact ih _ ch hc hnum
          · rw [runGateAux_cons_some es
              (gateStep_filler_skip hstop' hcond)] at hch
            rw [List.nil_append] at hch
            exact ih _ ch hch hnum
        · cases hout : emitLoop stopAt (pinsert n v s.pending).length
              { s with
                first_real_arrived :=
                  if n = 1 then true else s.first_real_arrived,
                pending := pinsert n v s.pending,
                clock := s.clock + 1 } with
          | mk out2 ost2 =>
            have hg : gateStep stopAt s (QItem.result n v) = (out2, ost2) :=
              (gateStep_real hstop' hn).trans hout
            have hloop : ∀ c ∈ out2, stopped stopAt (Chunk.clock c) = false := by
              intro c hc
              exact emitLoop_chunks_not_stopped stopAt
                (pinsert n v s.pending).length
                { s with
                  first_real_arrived :=
                    if n = 1 then true else s.first_real_arrived,
                  pending := pinsert n v s.pending,
                  clock := s.clock + 1 } c
                (by rw [hout]; exact hc)
            cases ost2 with
            | none =>
              rw [runGateAux_cons_none es hg] at hch
              exact hloop ch hch
            | some s2 =>
              rw [runGateAux_cons_some es hg] at hch
              rcases List.mem_append.mp hch with hc | hc
              · exact hloop ch hc
              · exact ih s2 ch hc hnum

/-- Every emitted chunk is either the filler (number 0) or carries a
number that satisfies any property holding for all pending keys and
for all arriving real results: chunks can only come from arrivals. -/
theorem runGateAux_chunks_arrived (stopAt : Option Nat) :
    ∀ (evts : List (QItem α)) (s : GateState α) (P : Nat → Prop),
      (∀ m, plookup m s.pending ≠ none → P m) →
      (∀ n v, QItem.result n v ∈ evts → n = 0 ∨ P n) →
      ∀ ch ∈ runGateAux stopAt s evts, ch.num = 0 ∨ P ch.num := by
  intro evts
  induction evts with
  | nil => intro s P _ _ ch hch; simp [runGateAux] at hch
  | cons e es ih =>
    intro s P hpend harr ch hch
    by_cases hstop : stopped stopAt s.clock
    · rw [runGateAux_cons_none es (gateStep_stopped hstop e)] at hch
      simp at hch
    · have hstop' : stopped stopAt s.clock = false := by simpa using hstop
      cases e with
      | sentinel =>
        rw [runGateAux_cons_none es (gateStep_sentinel_eq hstop')] at hch
        simp at hch
      | result n v =>
        have harr' : ∀ n' v', QItem.result n' v' ∈ es → n' = 0 ∨ P n' :=
          fun n' v' h => harr n' v' (List.mem_cons_of_mem _ h)
        by_cases hn : n = 0
        · subst hn
          by_cases hcond :
              s.first_real_arrived = false ∧ s.filler_emitted = false
          · rw [runGateAux_cons_some es
              (gateStep_filler_emit hstop' hcond)] at hch
            rcases List.mem_cons.mp hch with hc | hc
            · subst hc; exact Or.inl rfl
            · exact ih
                { s with filler_emitted := true, clock := s.clock + 1 + 1 }
                P hpend harr' ch hc
          · rw [runGateAux_cons_some es
              (gateStep_filler_skip hstop' hcond)] at hch
            rw [List.nil_append] at hch
            exact ih
              { s with clock := s.clock + 1 }
              P hpend harr' ch hch
        · have hPn : P n := by
            rcases harr n v (List.mem_cons_self _ _) with h0 | hP
            · exact absurd h0 hn
            · exact hP
          have hpend1 : ∀ m, plookup m (pinsert n v s.pending) ≠ none → P m := by
            intro m hm
            rw [plookup_pinsert] at hm
            by_cases hmn : n = m
            · rw [← hmn]; exact hPn
            · rw [if_neg hmn] at hm
              exact hpend m hm
          cases hout : emitLoop stopAt (pinsert n v s.pending).length
              { s with
                first_real_arrived :=
                  if n = 1 then true else s.first_real_arrived,
                pending := pinsert n v s.pending,
                clock := s.clock + 1 } with
          | mk out2 ost2 =>
            have hg : gateStep stopAt s (QItem.result n v) = (out2, ost2) :=
              (gateStep_real hstop' hn).trans hout
            have hloop : ∀ c ∈ out2, Chunk.num c = 0 ∨ P (Chunk.num c) := by
              intro c hc
              refine Or.inr (hpend1 c.num ?_)
              exact emitLoop_chunks_mem_pending stopAt
                (pinsert n v s.pending).length
                { s with
                  first_real_arrived :=
                    if n = 1 then true else s.first_real_arrived,
                  pending := pinsert n v s.pending,
                  clock := s.clock + 1 } c
                (by rw [hout]; exact hc)
            cases ost2 with
            | none =>
              rw [runGateAux_cons_none es hg] at hch
              exact hloop ch hch
            | some s2 =>
              obtain ⟨j, hmap, hrest⟩ := emitLoop_spec stopAt
                (pinsert n v s.pending).length
                { s with
                  first_real_arrived :=
                    if n = 1 then true else s.first_real_arrived,
                  pending := pinsert n v s.pending,
                  clock := s.clock + 1 } (Nat.le_refl _)
              rw [hout] at hrest
              rcases hrest with hcontra | ⟨t, ht, _, _, _, _, hmono⟩
              · exact absurd hcontra (by simp)
              · have hts : s2 = t := by simpa using ht
                subst hts
                rw [runGateAux_cons_some es hg] at hch
                rcases List.mem_append.mp hch with hc | hc
                · exact hloop ch hc
                · exact ih s2 P (fun m hm => hpend1 m (hmono m hm)) harr' ch hc

/-- The sequence number an item carries, when it is a result. -/
def QItem.seqOf : QItem α → Option Nat
  | QItem.result n _ => some n
  | QItem.sentinel => none

/-- A step on a non-sentinel item never makes the worker return when
the stop event is never set. -/
theorem gateStep_some_of_no_stop (s : GateState α) (e : QItem α)
    (he : e ≠ QItem.sentinel) :
    (gateStep (none : Option Nat) s e).2 ≠ none := by
  have hstop : stopped none s.clock = false := rfl
  cases e with
  | sentinel => exact absurd rfl he
  | result n v =>
    by_cases hn : n = 0
    · subst hn
      by_cases hcond : s.first_real_arrived = false ∧ s.filler_emitted = false
      · rw [gateStep_filler_emit hstop hcond]; simp
      · rw [gateStep_filler_skip hstop hcond]; simp
    · rw [gateStep_real hstop hn]
      exact emitLoop_none_stop none rfl _ _

/-- How the first-real flag evolves over one non-sentinel step with
the stop event never set: it becomes (or stays) set exactly when it was
already set or the item is the sequence-1 result. -/
theorem gateStep_first_real (s : GateState α) (e : QItem α)
    (he : e ≠ QItem.sentinel) (s' : GateState α)
    (h : (gateStep (none : Option Nat) s e).2 = some s') :
    s'.first_real_arrived = true ↔
      (s.first_real_arrived = true ∨ ∃ v, e = QItem.result 1 v) := by
  have hstop : stopped none s.clock = false := rfl
  cases e with
  | sentinel => exact absurd rfl he
  | result n v =>
    by_cases hn : n = 0
    · subst hn
      by_cases hcond : s.first_real_arrived = false ∧ s.filler_emitted = false
      · rw [gateStep_filler_emit hstop hcond] at h
        have hx :
            ({ s with filler_emitted := true, clock := s.clock + 1 + 1 }
              : GateState α) = s' := by
          simpa using h
        rw [← hx]
        simp
      · rw [gateStep_filler_skip hstop hcond] at h
        have hx : ({ s with clock := s.clock + 1 } : GateState α) = s' := by
          simpa using h
        rw [← hx]
        simp
    · rw [gateStep_real hstop hn] at h
      obtain ⟨j, _, hrest⟩ := emitLoop_spec none
        (pinsert n v s.pending).length
        { s with
          first_real_arrived := if n = 1 then true else s.first_real_arrived,
          pending := pinsert n v s.pending,
          clock := s.clock + 1 } (Nat.le_refl _)
      rcases hrest with hnone | ⟨t, ht, _, _, hfr, _, _⟩
      · rw [h] at hnone; exact absurd hnone (by simp)
      · rw [h] at ht
        have hts : s' = t := by simpa using ht
        subst hts
        rw [hfr]
        by_cases hn1 : n = 1
        · subst hn1
          simp
        · rw [if_neg hn1]
          dsimp only
          constructor
          · exact fun hfr' => Or.inl hfr'
          · rintro (hfr' | ⟨w, hw⟩)
            · exact hfr'
            · injection hw with hw1 _
              exact absurd hw1 hn1

/-- Along any sentinel-free trace with the stop event never set, the
first-real flag is set precisely when a sequence-1 result has been
consumed. -/
theorem runGateState_first_real :
    ∀ (evts : List (QItem α)) (s t : GateState α),
      (∀ e ∈ evts, e ≠ QItem.sentinel) →
      runGateState (none : Option Nat) (some s) evts = some t →
      (t.first_real_arrived = true ↔
        (s.first_real_arrived = true ∨ ∃ v, QItem.result 1 v ∈ evts)) := by
  intro evts
  induction evts with
  | nil =>
    intro s t _ h
    have hst : s = t := by simpa [runGateState] using h
    subst hst
    simp
  | cons e es ih =>
    intro s t hns h
    rw [runGateState] at h
    have hne : e ≠ QItem.sentinel := hns e (List.mem_cons_self _ _)
    cases hstep : (gateStep (none : Option Nat) s e).2 with
    | none => exact absurd hstep (gateStep_some_of_no_stop s e hne)
    | some s1 =>
      rw [hstep] at h
      have h1 := gateStep_first_real s e hne s1 hstep
      have h2 := ih s1 t (fun e' he' => hns e' (List.mem_cons_of_mem _ he')) h
      rw [h2, h1]
      constructor
      · rintro ((h4 | ⟨v, hv⟩) | ⟨v, hv⟩)
        · exact Or.inl h4
        · exact Or.inr ⟨v, by rw [hv]; exact List.mem_cons_self _ _⟩
        · exact Or.inr ⟨v, List.mem_cons_of_mem _ hv⟩
      · rintro (h3 | ⟨v, hv⟩)
        · exact Or.inl (Or.inl h3)
        · rcases List.mem_cons.mp hv with hv1 | hv2
          · exact Or.inl (Or.inr ⟨v, hv1.symm⟩)
          · exact Or.inr ⟨v, hv2⟩

/-! ### Pipeline tail — `backend/pipeline/llm.py` lines 117-129 -/

/-- Frames sent by the tail of `run_llm_pipeline`, tagged with the
logical instant the send was initiated. -/
inductive PFrame where
  | conv_pair (clock : Nat)
  | stream_done (clock : Nat)
  | error_frame (clock : Nat)
deriving DecidableEq

/-- The tail of `run_llm_pipeline` (llm.py lines 121-129), entered
with the logical clock at `c` once the gate has drained: when the
accumulated response is non-blank and the stop event is unset at the
check, the history write (`run_in_executor`, one suspension) runs and
`conversation_pair` is then sent — the stop event is not re-checked
between the check and that send; `stream_complete` follows
unconditionally.  No `error` frame is sent from this tail. -/
def convPairTail (stopAt : Option Nat) (c : Nat) (full_response : String) :
    List PFrame :=
  if full_response.trim ≠ "" ∧ stopped stopAt c = false then
    [PFrame.conv_pair (c + 1), PFrame.stream_done (c + 2)]
  else
    [PFrame.stream_done c]

/-! ### Claim theorems about the ordering gate -/

/-- C1: over any run of the ordering worker on any queue trace (any
multiset of completed TTS results, in any arrival order, with or
without the sentinel, under any cancellation instant), the outbound
chunks carry strictly ascending, contiguous sequence numbers starting
at 1, optionally preceded by exactly one filler chunk (number 0); the
filler, when present, is the very first chunk, hence precedes the
sequence-1 chunk. -/
theorem C1_gate_emits_contiguous_ascending {α : Type} (stopAt : Option Nat)
    (evts : List (QItem α)) :
    ∃ k, (runGate stopAt evts).map Chunk.num = List.range' 1 k ∨
      (runGate stopAt evts).map Chunk.num = 0 :: List.range' 1 k := by
  obtain ⟨m, hm⟩ := runGateAux_map_num stopAt evts (initGate α)
    (fun _ => ⟨rfl, rfl⟩)
  rcases hm with h1 | ⟨_, _, h2⟩
  · exact ⟨m, Or.inl h1⟩
  · exact ⟨m, Or.inr h2⟩

/-- C2 counterexample: the stop event becomes set at instant 1, during
the worker's `await` of the results queue — after the loop-top stop
check passed at instant 0 — while a filler result is already queued.
The filler `audio_chunk` is still sent, at instant 1, with the stop
event set: an `audio_chunk` frame goes out for the cancelled request
after the stop signal is set, because no stop check separates the
queue read from the filler send (tts.py lines 51-53). -/
theorem C2_counterexample :
    runGate (some 1) [QItem.result 0 ()]
        = [({ num := 0, payload := (), clock := 1 } : Chunk Unit)] ∧
    stopped (some 1) 1 = true := by
  exact ⟨rfl, rfl⟩

/-- C2 (amended): after the stop signal is set, no real-sentence
`audio_chunk` (sequence ≥ 1) is ever sent — the worker re-checks the
stop event with no intervening suspension before each such send.  The
filler chunk and the `conversation_pair` frame, however, are guarded
by a stop check separated from the actual send by one `await` (the
queue read, resp. the history write), so each can still go out once in
the window right after the signal is set; `conversation_pair` goes out
only if the check preceding the history write saw the signal unset.
No `error` frame is sent by these emission paths on cancellation. -/
theorem C2_no_real_chunk_after_stop {α : Type} :
    (∀ (stopAt : Option Nat) (evts : List (QItem α)) (ch : Chunk α),
      ch ∈ runGate stopAt evts → 1 ≤ ch.num →
      stopped stopAt ch.clock = false) ∧
    (∀ (stopAt : Option Nat) (c : Nat) (resp : String) (c' : Nat),
      PFrame.conv_pair c' ∈ convPairTail stopAt c resp →
      stopped stopAt c = false ∧ c' = c + 1) ∧
    (∀ (stopAt : Option Nat) (c : Nat) (resp : String) (c' : Nat),
      PFrame.error_frame c' ∉ convPairTail stopAt c resp) := by
  refine ⟨fun stopAt evts ch hch hnum =>
    runGateAux_real_not_stopped stopAt evts _ ch hch hnum, ?_, ?_⟩
  · intro stopAt c resp c' hmem
    rw [convPairTail] at hmem
    by_cases hc : resp.trim ≠ "" ∧ stopped stopAt c = false
    · rw [if_pos hc] at hmem
      refine ⟨hc.2, ?_⟩
      rcases List.mem_cons.mp hmem with h1 | h1
      · injection h1
      · simp at h1
    · rw [if_neg hc] at hmem
      simp at hmem
  · intro stopAt c resp c' hmem
    rw [convPairTail] at hmem
    by_cases hc : resp.trim ≠ "" ∧ stopped stopAt c = false
    · rw [if_pos hc] at hmem
      simp at hmem
    · rw [if_neg hc] at hmem
      simp at hmem

/-- Witness for C2 (amended): the sequence-1 chunk of a one-result
trace is sent at instant 1, before the stop instant 5. -/
theorem C2_no_real_chunk_after_stop_witness :
    (({ num := 1, payload := (), clock := 1 } : Chunk Unit)
        ∈ runGate (some 5) [QItem.result 1 ()] ∧ (1 : Nat) ≤ 1) ∧
    stopped (some 5) 1 = false :=
  ⟨⟨by decide, by decide⟩,
    C2_no_real_chunk_after_stop.1 (some 5) [QItem.result 1 ()]
      { num := 1, payload := (), clock := 1 } (by decide) (by decide)⟩

/-- C4 counterexample: the sequence-1 result never arrives (its
synthesis failed); the sequence-2 result is delivered and then the
sentinel.  The claim requires the gate to wait a bounded grace period
and then advance past the gap, emitting the later-numbered result; the
code instead exits at the sentinel having emitted nothing: chunk 2 is
lost. -/
theorem C4_counterexample :
    runGate (none : Option Nat) [QItem.result 2 (), QItem.sentinel]
      = ([] : List (Chunk Unit)) := by
  rfl

/-- C4 (amended): on the end-of-stream sentinel the worker returns
immediately, emitting nothing further — which loses no in-order entry,
because in-order entries are emitted eagerly on arrival, and is why
nothing needs flushing; but there is no grace-period recovery for
gaps: if a sequence number `g ≥ 1` never arrives (synthesis failure),
no chunk with a number above the gap is ever emitted — later-numbered
results are silently discarded when the sentinel arrives. -/
theorem C4_sentinel_exits_and_gap_blocks {α : Type} (stopAt : Option Nat)
    (evts : List (QItem α)) (g : Nat) (hg : 1 ≤ g)
    (habs : ∀ e ∈ evts, QItem.seqOf e ≠ some g) :
    (∀ s : GateState α, gateStep stopAt s QItem.sentinel = ([], none)) ∧
    (∀ ch ∈ runGate stopAt evts, ch.num = 0 ∨ ch.num < g) := by
  constructor
  · intro s
    by_cases hstop : stopped stopAt s.clock
    · exact gateStep_stopped hstop _
    · exact gateStep_sentinel_eq (by simpa using hstop)
  · have harr : ∀ ch ∈ runGate stopAt evts, ch.num = 0 ∨ ch.num ≠ g :=
      runGateAux_chunks_arrived stopAt evts (initGate α) (fun m => m ≠ g)
        (fun m hm => absurd rfl hm)
        (fun n v hmem => Or.inr (by
          have := habs (QItem.result n v) hmem
          simpa [QItem.seqOf] using this))
    obtain ⟨k, hk⟩ : ∃ k,
        (runGate stopAt evts).map Chunk.num = List.range' 1 k ∨
        ((initGate α).filler_emitted = false ∧
          (initGate α).first_real_arrived = false ∧
          (runGate stopAt evts).map Chunk.num = 0 :: List.range' 1 k) :=
      runGateAux_map_num stopAt evts (initGate α) (fun _ => ⟨rfl, rfl⟩)
    intro ch hch
    by_cases hz : ch.num = 0
    · exact Or.inl hz
    · rcases harr ch hch with h0 | hne
      · exact Or.inl h0
      · refine Or.inr ?_
        by_contra hlt
        have hgt : g < ch.num := by
          rcases Nat.lt_or_ge ch.num g with h | h
          · exact absurd h hlt
          · rcases Nat.eq_or_lt_of_le h with h' | h'
            · exact absurd h'.symm hne
            · exact h'
        have hchmem : ch.num ∈ (runGate stopAt evts).map Chunk.num :=
          List.mem_map.mpr ⟨ch, hch, rfl⟩
        have hrange : ch.num ∈ List.range' 1 k := by
          rcases hk with h1 | ⟨_, _, h2⟩
          · rwa [h1] at hchmem
          · rw [h2] at hchmem
            rcases List.mem_cons.mp hchmem with hc | hc
            · exact absurd hc hz
            · exact hc
        have hgmem : g ∈ List.range' 1 k := by
          have := List.mem_range'_1.mp hrange
          exact List.mem_range'_1.mpr ⟨hg, by omega⟩
        have hgout : g ∈ (runGate stopAt evts).map Chunk.num := by
          rcases hk with h1 | ⟨_, _, h2⟩
          · rwa [h1]
          · rw [h2]
            exact List.mem_cons_of_mem _ hgmem
        obtain ⟨ch', hch', hch'g⟩ := List.mem_map.mp hgout
        rcases harr ch' hch' with h0' | hne'
        · rw [h0'] at hch'g
          omega
        · rw [hch'g] at hne'
          exact hne' rfl

/-- Witness for C4 (amended) on the counterexample trace: sequence 1
absent, sequence 2 delivered, then the sentinel. -/
theorem C4_sentinel_exits_and_gap_blocks_witness :
    ((1 : Nat) ≤ 1 ∧
      (∀ e ∈ [QItem.result 2 (), QItem.sentinel (α := Unit)],
        QItem.seqOf e ≠ some 1)) ∧
    ((∀ s : GateState Unit, gateStep none s QItem.sentinel = ([], none)) ∧
      (∀ ch ∈ runGate (none : Option Nat)
          [QItem.result 2 (), QItem.sentinel (α := Unit)],
        ch.num = 0 ∨ ch.num < 1)) :=
  ⟨⟨by decide, by decide⟩,
    C4_sentinel_exits_and_gap_blocks none
      [QItem.result 2 (), QItem.sentinel (α := Unit)] 1
      (by decide) (by decide)⟩

/-- C10: a filler result is emitted if and only if no filler was
emitted before and the sequence-1 result has not yet arrived.  First
conjunct: at any reachable instant with the stop event unset, the step
on a filler emits exactly one 0-chunk when `first_real_arrived` and
`filler_emitted` are both still false, and nothing otherwise; the step
never queues the filler — `pending` and the cursor are untouched.  In
particular a filler arriving while only higher-numbered results are
pending (flag still false) is emitted, and one arriving after the
sequence-1 result (flag true) is discarded.  Second conjunct: along
any sentinel-free uncancelled trace from the initial state, the
`first_real_arrived` flag is set exactly when a sequence-1 result was
consumed. -/
theorem C10_filler_iff_no_filler_and_no_first_real {α : Type} :
    (∀ (stopAt : Option Nat) (s : GateState α) (v : α),
      stopped stopAt s.clock = false →
      ((gateStep stopAt s (QItem.result 0 v)).1.map Chunk.num
          = if s.first_real_arrived = false ∧ s.filler_emitted = false
            then [0] else []) ∧
      (∃ s', (gateStep stopAt s (QItem.result 0 v)).2 = some s' ∧
        s'.pending = s.pending ∧ s'.next_to_emit = s.next_to_emit ∧
        s'.first_real_arrived = s.first_real_arrived)) ∧
    (∀ (evts : List (QItem α)) (t : GateState α),
      (∀ e ∈ evts, e ≠ QItem.sentinel) →
      runGateState (none : Option Nat) (some (initGate α)) evts = some t →
      (t.first_real_arrived = true ↔ ∃ v, QItem.result 1 v ∈ evts)) := by
  constructor
  · intro stopAt s v hstop
    by_cases hcond : s.first_real_arrived = false ∧ s.filler_emitted = false
    · rw [gateStep_filler_emit hstop hcond, if_pos hcond]
      exact ⟨rfl, _, rfl, rfl, rfl, rfl⟩
    · rw [gateStep_filler_skip hstop hcond, if_neg hcond]
      exact ⟨rfl, _, rfl, rfl, rfl, rfl⟩
  · intro evts t hns h
    have := runGateState_first_real evts (initGate α) t hns h
    rw [this]
    simp [initGate]

/-- Witness for C10 at the initial state (filler emitted) and on the
trace `[seq 2, seq 0, seq 1]` (flag set because sequence 1 arrived). -/
theorem C10_filler_iff_witness :
    (stopped (none : Option Nat) (initGate Unit).clock = false ∧
      (∀ e ∈ [QItem.result 2 (), QItem.result 0 (),
          QItem.result (α := Unit) 1 ()], e ≠ QItem.sentinel)) ∧
    ((gateStep (none : Option Nat) (initGate Unit) (QItem.result 0 ())).1.map
        Chunk.num
      = if (initGate Unit).first_real_arrived = false ∧
            (initGate Unit).filler_emitted = false
        then [0] else []) ∧
    (∀ t, runGateState (none : Option Nat) (some (initGate Unit))
        [QItem.result 2 (), QItem.result 0 (), QItem.result 1 ()] = some t →
      (t.first_real_arrived = true ↔
        ∃ v, QItem.result 1 v ∈ [QItem.result 2 (), QItem.result 0 (),
          QItem.result (α := Unit) 1 ()])) :=
  ⟨⟨rfl, by decide⟩,
    (C10_filler_iff_no_filler_and_no_first_real.1 none (initGate Unit) ()
      rfl).1,
    fun t ht => C10_filler_iff_no_filler_and_no_first_real.2
      [QItem.result 2 (), QItem.result 0 (), QItem.result 1 ()] t
      (by decide) ht⟩

/-! ## STT bridge — `backend/pipeline/stt.py` -/

/-- Buffering state of `STTSession` (stt.py lines 19-25): the bounded
live queue (`maxsize=400`) and the unbounded replay buffer, plus the
`_stop` / `_done` events.  Audio frames are abstracted as naturals. -/
structure STTSession where
  audio_q : List Nat
  audio_buf : List Nat
  stop_set : Bool
  done_set : Bool
deriving DecidableEq

/-- A freshly constructed `STTSession`. -/
def STTSession.new : STTSession := ⟨[], [], false, false⟩

/-- `STTSession.add_audio` (stt.py lines 33-40): ignored after stop or
done; otherwise the frame is always appended to the replay buffer, and
to the live queue only when the queue holds fewer than 400 entries —
on a full queue the frame is dropped (with a warning) from the queue
but kept in the buffer. -/
def add_audio (s : STTSession) (data : Nat) : STTSession :=
  if s.stop_set || s.done_set then s
  else
    { s with
      audio_buf := s.audio_buf ++ [data],
      audio_q := if s.audio_q.length < 400 then s.audio_q ++ [data]
                 else s.audio_q }

/-- `STTSession.close` (stt.py lines 46-49): hard cancel. -/
def STTSession.close (s : STTSession) : STTSession :=
  { s with stop_set := true, done_set := true }

/-- `STTSession.done` (stt.py lines 42-44): normal end-of-speech. -/
def STTSession.markDone (s : STTSession) : STTSession :=
  { s with done_set := true }

/-- `STTSession._retry_generator` (stt.py lines 67-72): replays a
snapshot of the complete audio buffer; each yield re-checks `_stop`,
so for a session whose stop event stays constant during the replay the
yielded frames are the whole buffer, or nothing when cancelled. -/
def retry_generator (s : STTSession) : List Nat :=
  if s.stop_set then [] else s.audio_buf

/-- Outcome of one `streaming_recognize` attempt as observed by
`STTSession._run`: a final alternative with this text arrived, the
response stream ended without a final, or the call raised. -/
inductive AttemptOutcome where
  | final (text : String)
  | ended
  | err
deriving DecidableEq

/-- Result of `STTSession._run`: the transcript the future is resolved
with, the number of recognition attempts executed, and the frames the
retry attempt replayed, when a retry ran. -/
structure STTRunResult where
  transcript : String
  attempts : Nat
  replayed : Option (List Nat)
deriving DecidableEq

/-- The retry loop of `STTSession._run` (stt.py lines 90-121,
`while attempt <= _STT_MAX_RETRIES and not self._stop.is_set()` with
`_STT_MAX_RETRIES = 1`), for an uncancelled session, with the external
recognizer abstracted as the per-attempt outcome `oracle`.  Attempt 0
feeds the live generator; attempts from 1 on use `_retry_generator`.
A final alternative sets the transcript and breaks; a clean end of the
response stream breaks with the transcript still empty; an exception
increments `attempt` and loops (the loop guard then stops a third
attempt).  `fuel` dominates the loop count; 3 always suffices. -/
def sttRunLoop (oracle : Nat → AttemptOutcome) (s : STTSession) :
    Nat → Nat → Option (List Nat) → STTRunResult
  | 0, attempt, replayed => ⟨"", attempt, replayed⟩
  | fuel + 1, attempt, replayed =>
    if attempt ≤ 1 then
      let replayed' := if attempt = 0 then replayed
                       else some (retry_generator s)
      match oracle attempt with
      | AttemptOutcome.final t => ⟨t, attempt + 1, replayed'⟩
      | AttemptOutcome.ended => ⟨"", attempt + 1, replayed'⟩
      | AttemptOutcome.err => sttRunLoop oracle s fuel (attempt + 1) replayed'
    else ⟨"", attempt, replayed⟩

/-- `STTSession._run` from the start of the thread. -/
def sttRun (s : STTSession) (oracle : Nat → AttemptOutcome) : STTRunResult :=
  sttRunLoop oracle s 3 0 none

/-- The frames the gateway has pushed since `start()`, folded through
`add_audio` on a fresh session. -/
def pushAll (frames : List Nat) : STTSession :=
  frames.foldl add_audio STTSession.new

/-! ### STT lemmas -/

theorem add_audio_foldl :
    ∀ (frames : List Nat) (s : STTSession), s.stop_set = false →
      s.done_set = false → s.audio_q.length ≤ 400 →
      (frames.foldl add_audio s).audio_buf = s.audio_buf ++ frames ∧
      (frames.foldl add_audio s).stop_set = false ∧
      (frames.foldl add_audio s).done_set = false ∧
      (frames.foldl add_audio s).audio_q.length
        = min (s.audio_q.length + frames.length) 400 := by
  intro frames
  induction frames with
  | nil =>
    intro s hs hd hq
    refine ⟨by simp, hs, hd, ?_⟩
    simp
    omega
  | cons f fs ih =>
    intro s hs hd hq
    rw [List.foldl_cons]
    have hstep : add_audio s f =
        { s with
          audio_buf := s.audio_buf ++ [f],
          audio_q := if s.audio_q.length < 400 then s.audio_q ++ [f]
                     else s.audio_q } := by
      rw [add_audio, if_neg (by rw [hs, hd]; simp)]
    rw [hstep]
    by_cases hlt : s.audio_q.length < 400
    · obtain ⟨hb, h1, h2, h3⟩ := ih
        { s with
          audio_buf := s.audio_buf ++ [f],
          audio_q := if s.audio_q.length < 400 then s.audio_q ++ [f]
                     else s.audio_q }
        hs hd (by simp [if_pos hlt]; omega)
      refine ⟨by rw [hb]; simp, h1, h2, ?_⟩
      rw [h3]
      simp [if_pos hlt]
      omega
    · obtain ⟨hb, h1, h2, h3⟩ := ih
        { s with
          audio_buf := s.audio_buf ++ [f],
          audio_q := if s.audio_q.length < 400 then s.audio_q ++ [f]
                     else s.audio_q }
        hs hd (by simp [if_neg hlt]; omega)
      refine ⟨by rw [hb]; simp, h1, h2, ?_⟩
      rw [h3]
      simp [if_neg hlt]
      omega

/-- State of the session after the gateway pushed `frames`. -/
theorem pushAll_spec (frames : List Nat) :
    (pushAll frames).audio_buf = frames ∧
    (pushAll frames).stop_set = false ∧
    (pushAll frames).done_set = false ∧
    (pushAll frames).audio_q.length = min frames.length 400 := by
  obtain ⟨hb, h1, h2, h3⟩ := add_audio_foldl frames STTSession.new rfl rfl
    (by simp [STTSession.new])
  refine ⟨by simpa [STTSession.new] using hb, h1, h2, ?_⟩
  simpa [STTSession.new] using h3

/-- C5 counterpart lemma: the run under a first-attempt failure. -/
theorem sttRun_first_err (s : STTSession) (oracle : Nat → AttemptOutcome)
    (herr : oracle 0 = AttemptOutcome.err) :
    (sttRun s oracle).attempts = 2 ∧
    (sttRun s oracle).replayed = some (retry_generator s) ∧
    (oracle 1 = AttemptOutcome.err → (sttRun s oracle).transcript = "") := by
  rw [sttRun, sttRunLoop, if_pos (by omega), herr]
  dsimp only
  rw [sttRunLoop, if_pos (by omega)]
  cases h1 : oracle 1 with
  | final t => exact ⟨rfl, rfl, fun hc => absurd hc (by simp)⟩
  | ended => exact ⟨rfl, rfl, fun _ => rfl⟩
  | err =>
    dsimp only
    rw [sttRunLoop, if_neg (by omega)]
    exact ⟨rfl, rfl, fun _ => rfl⟩

/-- C5: for a session whose first recognition attempt raises a
(transient) error, `_run` performs exactly one retry — the second and
last attempt — and that retry replays the complete audio buffer: every
frame pushed through `add_audio` since start, including frames the
bounded live queue dropped (the buffer append precedes the fallible
queue put); if the retry also raises, the transcript future is
resolved with empty text; a third attempt never happens. -/
theorem C5_stt_single_retry_full_replay (frames : List Nat)
    (oracle : Nat → AttemptOutcome) (herr : oracle 0 = AttemptOutcome.err) :
    (sttRun (pushAll frames) oracle).attempts = 2 ∧
    (sttRun (pushAll frames) oracle).replayed = some frames ∧
    (pushAll frames).audio_q.length = min frames.length 400 ∧
    (oracle 1 = AttemptOutcome.err →
      (sttRun (pushAll frames) oracle).transcript = "") := by
  obtain ⟨hb, hs, _, hq⟩ := pushAll_spec frames
  obtain ⟨ha, hr, ht⟩ := sttRun_first_err (pushAll frames) oracle herr
  refine ⟨ha, ?_, hq, ht⟩
  rw [hr, retry_generator, if_neg (by rw [hs]; simp), hb]

/-- Witness for C5: three frames pushed, both attempts raise. -/
theorem C5_stt_single_retry_full_replay_witness :
    ((fun _ : Nat => AttemptOutcome.err) 0 = AttemptOutcome.err) ∧
    ((sttRun (pushAll [5, 6, 7]) (fun _ => AttemptOutcome.err)).attempts = 2 ∧
     (sttRun (pushAll [5, 6, 7]) (fun _ => AttemptOutcome.err)).replayed
        = some [5, 6, 7] ∧
     (pushAll [5, 6, 7]).audio_q.length = min [5, 6, 7].length 400 ∧
     ((fun _ : Nat => AttemptOutcome.err) 1 = AttemptOutcome.err →
       (sttRun (pushAll [5, 6, 7])
         (fun _ => AttemptOutcome.err)).transcript = "")) :=
  ⟨rfl, C5_stt_single_retry_full_replay [5, 6, 7]
    (fun _ => AttemptOutcome.err) rfl⟩

/-! ## Session store — `backend/services/session_service.py` -/

/-- A session record (session_service.py lines 59-90): history entries
are `(user, assistant, timestamp)` triples; `vars` embeds the record's
`variables` mapping (`variables` is a reserved word in Lean 4). -/
structure SessionData where
  history : List (String × String × String)
  vars : List (String × String)
  created : String
  last_access : String
deriving DecidableEq

/-- `get_or_create_session` (session_service.py lines 58-90), with the
Redis store abstracted as an association list — a key expired by its
`setex` TTL, or lost because `_load` swallowed a Redis failure, is
simply absent — and the fresh `uuid4` modelled by the parameter
`freshId`.  A falsy (absent or empty) presented id is replaced by the
fresh id; the resulting id is looked up; a miss creates a new record
with both timestamps at `now` and saves it under that id; a hit
updates `last_access` and re-saves (refreshing the TTL).  Returns the
id, the record and the updated store. -/
def get_or_create_session (store : List (String × SessionData))
    (now freshId : String) (session_id : Option String) :
    String × SessionData × List (String × SessionData) :=
  let sid := match session_id with
    | none => freshId
    | some sid0 => if sid0 = "" then freshId else sid0
  match plookup sid store with
  | none =>
    let data : SessionData := ⟨[], [], now, now⟩
    (sid, data, pinsert sid data store)
  | some data =>
    let data' := { data with last_access := now }
    (sid, data', pinsert sid data' store)

/-- C8 counterexample: the presented id `"abc"` is absent from the
store (never created, or expired by the TTL); the claim requires a
fresh randomly generated id, but the code keeps the presented id and
creates the new session under it — the returned id is `"abc"`, not
the fresh uuid. -/
theorem C8_counterexample :
    (get_or_create_session [] "t0" "fresh-uuid" (some "abc")).1 = "abc" ∧
    "abc" ≠ "fresh-uuid" :=
  ⟨rfl, by decide⟩

/-- C8 (amended): a fresh id is generated only when no id — or an
empty one — is presented; a presented id that is absent or expired in
the store is kept, and a brand-new session record (both timestamps at
now) is created and saved under it; on a hit the same id is returned,
the record's last-access timestamp is set to now with every other
field preserved, and the record is re-saved, refreshing its TTL. -/
theorem C8_get_or_create_behaviour (store : List (String × SessionData))
    (now freshId : String) :
    (∀ sid0, (sid0 = none ∨ sid0 = some "") →
      (get_or_create_session store now freshId sid0).1 = freshId) ∧
    (∀ sid, sid ≠ "" → plookup sid store = none →
      get_or_create_session store now freshId (some sid)
        = (sid, ⟨[], [], now, now⟩,
            pinsert sid ⟨[], [], now, now⟩ store)) ∧
    (∀ sid data, sid ≠ "" → plookup sid store = some data →
      get_or_create_session store now freshId (some sid)
        = (sid, { data with last_access := now },
            pinsert sid { data with last_access := now } store)) := by
  refine ⟨?_, ?_, ?_⟩
  · rintro sid0 (rfl | rfl) <;>
      · rw [get_or_create_session]
        cases h : plookup freshId store <;> simp [h]
  · intro sid hne hmiss
    rw [get_or_create_session]
    simp only [if_neg hne]
    rw [hmiss]
  · intro sid data hne hhit
    rw [get_or_create_session]
    simp only [if_neg hne]
    rw [hhit]

/-- Witness for C8 (amended): lookup of the absent id `"abc"` on the
empty store keeps the presented id and creates the record there. -/
theorem C8_get_or_create_behaviour_witness :
    ("abc" ≠ "" ∧ plookup "abc" ([] : List (String × SessionData)) = none) ∧
    get_or_create_session [] "t0" "fresh-uuid" (some "abc")
      = ("abc", ⟨[], [], "t0", "t0"⟩,
          pinsert "abc" (⟨[], [], "t0", "t0"⟩ : SessionData) []) :=
  ⟨⟨by decide, rfl⟩,
    (C8_get_or_create_behaviour [] "t0" "fresh-uuid").2.1 "abc"
      (by decide) rfl⟩

/-! ## Connection FSM — `backend/ws_gateway.py` -/

/-- Status of a reply-pipeline `asyncio.Task` as the handlers see it:
still running, cancelled by `.cancel()`, or finished on its own
(`done()` is true for the latter two). -/
inductive TaskStatus where
  | running
  | cancelled
  | finished
deriving DecidableEq

/-- `ClientState` (ws_gateway.py lines 41-53).  `pipeline_tasks` keeps
every reply-pipeline task ever created on this connection, oldest
first — the source holds only the newest in `_pipeline_task`; keeping
the older ones lets theorems state a predecessor's fate.
`stop_event_set` is `_stop_event.is_set()` of the current event. -/
structure Conn where
  origin : String
  authorized : Bool
  api_key : String
  session_id : String
  voice : String
  mode : String
  selected_doc : String
  stt_session : Option STTSession
  pipeline_tasks : List TaskStatus
  stop_event_set : Bool
deriving DecidableEq

/-- A fresh `ClientState` for a new connection (lines 42-53). -/
def Conn.new (origin : String) : Conn :=
  ⟨origin, false, "", "", "en-US-Neural2-J", "general", "all", none, [],
    false⟩

/-- `self._pipeline_task.cancel()` guarded by `not done()` (lines
81-82 and 88-89): the newest task, if still running, is cancelled. -/
def cancelCurrentTask : List TaskStatus → List TaskStatus
  | [] => []
  | [TaskStatus.running] => [TaskStatus.cancelled]
  | [t] => [t]
  | t :: ts => t :: cancelCurrentTask ts

/-- `ClientState._new_stop_event` (ws_gateway.py lines 80-84): cancels
the outstanding pipeline task if one is still running, then installs a
fresh, unset stop event. -/
def new_stop_event (c : Conn) : Conn :=
  { c with pipeline_tasks := cancelCurrentTask c.pipeline_tasks,
           stop_event_set := false }

/-- `ClientState.cancel_pipeline` (ws_gateway.py lines 86-90): sets
the stop event and cancels the task.  (The source also drops the
`_pipeline_task` reference, which changes no task's status.) -/
def cancel_pipeline (c : Conn) : Conn :=
  { c with stop_event_set := true,
           pipeline_tasks := cancelCurrentTask c.pipeline_tasks }

/-- The `data` object of an inbound frame, restricted to the fields
the handlers read; a missing key reads as `none`.  `audio` carries the
base64-decoded frame (abstracted as a natural), `none` when missing,
empty or undecodable. -/
structure MsgData where
  api_key : Option String
  session_id : Option String
  voice : Option String
  mode : Option String
  selected_document : Option String
  audio : Option Nat
deriving DecidableEq

/-- A frame whose `data` object is empty. -/
def MsgData.empty : MsgData := ⟨none, none, none, none, none, none⟩

/-- An inbound websocket message: unparseable JSON, or a frame with a
`type` string and a `data` object. -/
inductive InMsg where
  | malformed
  | frame (msgType : String) (data : MsgData)
deriving DecidableEq

/-- Outbound frames the message handlers send (ws_gateway.py lines
55-78 and the handlers).  Error-message payload text is abridged. -/
inductive OutFrame where
  | error_out (message : String)
  | connected (session_id : String)
  | stream_started (session_id : String)
  | documents_list (docs : List String)
  | echo (msgType : String)
  | stream_complete
deriving DecidableEq

/-- The externals `handle_message` reaches: `check_origin_allowed`
(security_service), the session id `get_or_create_session` yields for
a presented id, and the document list (`none`: the call raised). -/
structure Env where
  check_origin_allowed : String → String → Bool
  session_id_for : Option String → String
  docs : Option (List String)

/-- `_handle_auth` (ws_gateway.py lines 120-139). -/
def handle_auth (env : Env) (c : Conn) (d : MsgData) : Conn × List OutFrame :=
  let key := d.api_key.getD ""
  if key = "" then (c, [OutFrame.error_out "auth must include api_key"])
  else if env.check_origin_allowed key c.origin = false then
    (c, [OutFrame.error_out "auth failed: origin not allowed"])
  else
    let sid := env.session_id_for (match d.session_id with
      | none => none
      | some s => if s = "" then none else some s)
    ({ c with api_key := key, session_id := sid, authorized := true },
      [OutFrame.connected sid])

/-- Python's `data.get(key, default) or default` idiom of
`_handle_start_stream` (lines 151-153): missing or empty falls back to
the default. -/
def getOrDefault (o : Option String) (dflt : String) : String :=
  match o with
  | none => dflt
  | some s => if s = "" then dflt else s

/-- `_handle_start_stream` (ws_gateway.py lines 150-159): updates
voice, mode and selected document, closes any prior STT session,
installs a fresh one and emits `stream_started`.  The third component
returns the prior STT session as `close()` left it (the source just
drops the reference; returning it lets theorems state its fate).  The
pipeline task and the stop event are not touched. -/
def handle_start_stream (c : Conn) (d : MsgData) :
    Conn × List OutFrame × Option STTSession :=
  let closedPrior := c.stt_session.map STTSession.close
  ({ c with
      voice := getOrDefault d.voice "en-US-Neural2-J",
      mode := getOrDefault d.mode "general",
      selected_doc := getOrDefault d.selected_document "all",
      stt_session := some STTSession.new },
    [OutFrame.stream_started c.session_id], closedPrior)

/-- `_handle_stt_audio` (ws_gateway.py lines 161-170): one decoded
frame is pushed into the current STT session, if any. -/
def handle_stt_audio (c : Conn) (d : MsgData) : Conn :=
  match c.stt_session with
  | none => c
  | some stt =>
    match d.audio with
    | none => c
    | some b => { c with stt_session := some (add_audio stt b) }

/-- `_handle_end_speech` (ws_gateway.py lines 172-210): with no STT
session, only `stream_complete` is sent; otherwise the session is
released and marked done, `_new_stop_event` cancels the prior pipeline
task and installs a fresh stop event, and a new pipeline task is
spawned (the spawned coroutine runs asynchronously and sends nothing
during the handler itself). -/
def handle_end_speech (c : Conn) : Conn × List OutFrame :=
  match c.stt_session with
  | none => (c, [OutFrame.stream_complete])
  | some _ =>
    let c1 : Conn := { c with stt_session := none }
    let c2 := new_stop_event c1
    ({ c2 with
        pipeline_tasks := c2.pipeline_tasks ++ [TaskStatus.running] }, [])

/-- `_handle_barge_in` (ws_gateway.py lines 212-214). -/
def handle_barge_in (c : Conn) : Conn := cancel_pipeline c

/-- `_handle_get_documents` (ws_gateway.py lines 141-148). -/
def handle_get_documents (env : Env) (c : Conn) : Conn × List OutFrame :=
  match env.docs with
  | some ds => (c, [OutFrame.documents_list ds])
  | none => (c, [OutFrame.error_out "failed to fetch documents"])

/-- `ClientState.handle_message` (ws_gateway.py lines 92-118):
malformed JSON gets an error reply; on an unauthorized connection any
frame but `auth` gets an error reply; an authorized connection
dispatches on the five known types and answers anything else with an
`echo` frame.  The handler never closes the connection. -/
def handle_message (env : Env) (c : Conn) (m : InMsg) :
    Conn × List OutFrame :=
  match m with
  | InMsg.malformed => (c, [OutFrame.error_out "invalid JSON"])
  | InMsg.frame msgType d =>
    if c.authorized = false then
      if msgType ≠ "auth" then
        (c, [OutFrame.error_out "not authenticated"])
      else handle_auth env c d
    else
      if msgType = "get_documents" then handle_get_documents env c
      else if msgType = "start_stream" then
        ((handle_start_stream c d).1, (handle_start_stream c d).2.1)
      else if msgType = "stt_audio" then (handle_stt_audio c d, [])
      else if msgType = "end_speech" then handle_end_speech c
      else if msgType = "barge_in" then (handle_barge_in c, [])
      else (c, [OutFrame.echo msgType])

/-- A permissive environment for concrete runs. -/
def envTest : Env := ⟨fun _ _ => true, fun _ => "sid-1", some []⟩

/-- A connection mid-reply: authorized, an open STT session, one
running reply-pipeline task, stop event unset. -/
def connMidReply : Conn :=
  { origin := "http://x", authorized := true, api_key := "k",
    session_id := "sid-1", voice := "en-US-Neural2-J", mode := "general",
    selected_doc := "all", stt_session := some STTSession.new,
    pipeline_tasks := [TaskStatus.running], stop_event_set := false }

/-! ### Claim theorems about the connection FSM -/

/-- C3 counterexample: a connection with a reply pipeline still
running and its stop event unset handles `start_stream`; afterwards
the pipeline task is still running and the stop event still unset,
even though a fresh STT bridge was installed — the prior reply
pipeline was not cancelled before the new bridge was created. -/
theorem C3_counterexample :
    (handle_message envTest connMidReply
        (InMsg.frame "start_stream" MsgData.empty)).1.pipeline_tasks
      = [TaskStatus.running] ∧
    (handle_message envTest connMidReply
        (InMsg.frame "start_stream" MsgData.empty)).1.stop_event_set
      = false ∧
    (handle_message envTest connMidReply
        (InMsg.frame "start_stream" MsgData.empty)).1.stt_session
      = some STTSession.new :=
  ⟨rfl, rfl, rfl⟩

/-- C3 (amended): handling `start_stream` closes any prior STT bridge
and installs a fresh one, but neither cancels a prior in-flight reply
pipeline nor touches its stop event — both are exactly as before.  The
prior pipeline is cancelled only when `end_speech` starts the next
reply (`_new_stop_event` cancels the running task and installs a fresh
unset stop event before the new pipeline task is spawned), or by
`barge_in` / connection close (`cancel_pipeline` sets the stop event
and cancels the task). -/
theorem C3_start_stream_keeps_pipeline (c : Conn) (d : MsgData) :
    ((handle_start_stream c d).1.pipeline_tasks = c.pipeline_tasks ∧
     (handle_start_stream c d).1.stop_event_set = c.stop_event_set ∧
     (handle_start_stream c d).1.stt_session = some STTSession.new ∧
     (∀ h, c.stt_session = some h →
        (handle_start_stream c d).2.2 = some (STTSession.close h))) ∧
    (c.stt_session ≠ none →
      (handle_end_speech c).1.pipeline_tasks
        = cancelCurrentTask c.pipeline_tasks ++ [TaskStatus.running] ∧
      (handle_end_speech c).1.stop_event_set = false) ∧
    ((handle_barge_in c).pipeline_tasks = cancelCurrentTask c.pipeline_tasks ∧
     (handle_barge_in c).stop_event_set = true) := by
  refine ⟨⟨rfl, rfl, rfl, ?_⟩, ?_, ⟨rfl, rfl⟩⟩
  · intro h hh
    rw [handle_start_stream]
    dsimp only
    rw [hh]
    rfl
  · intro hs
    cases hstt : c.stt_session with
    | none => exact absurd hstt hs
    | some stt =>
      rw [handle_end_speech, hstt]
      exact ⟨rfl, rfl⟩

/-- Witness for C3 (amended) on the mid-reply connection. -/
theorem C3_start_stream_keeps_pipeline_witness :
    (connMidReply.stt_session = some STTSession.new ∧
      connMidReply.stt_session ≠ none) ∧
    ((handle_start_stream connMidReply MsgData.empty).2.2
        = some (STTSession.close STTSession.new) ∧
      (handle_end_speech connMidReply).1.pipeline_tasks
        = cancelCurrentTask connMidReply.pipeline_tasks
            ++ [TaskStatus.running] ∧
      (handle_end_speech connMidReply).1.stop_event_set = false) :=
  ⟨⟨rfl, by simp [connMidReply]⟩,
    (C3_start_stream_keeps_pipeline connMidReply MsgData.empty).1.2.2.2
      STTSession.new rfl,
    ((C3_start_stream_keeps_pipeline connMidReply MsgData.empty).2.1
      (by simp [connMidReply])).1,
    ((C3_start_stream_keeps_pipeline connMidReply MsgData.empty).2.1
      (by simp [connMidReply])).2⟩

/-- C9 counterexample: on an authorized connection, a frame of the
unknown type `"bogus"` is answered with an `echo` frame, not an
`error` frame, contradicting the claim that a message of unknown type
yields an error reply. -/
theorem C9_counterexample :
    handle_message envTest connMidReply (InMsg.frame "bogus" MsgData.empty)
      = (connMidReply, [OutFrame.echo "bogus"]) ∧
    (∀ msg, OutFrame.echo "bogus" ≠ OutFrame.error_out msg) :=
  ⟨rfl, fun _ h => OutFrame.noConfusion h⟩

/-- C9 (amended): a malformed frame, and any non-`auth` frame on an
unauthorized connection, are answered with a single `error` frame and
leave the connection state unchanged (the handler never closes the
connection); a frame of unknown type on an authorized connection is
answered with a single `echo` frame — not an `error` frame — again
with the state unchanged. -/
theorem C9_protocol_error_replies (env : Env) (c : Conn) (t : String)
    (d : MsgData) :
    (handle_message env c InMsg.malformed
        = (c, [OutFrame.error_out "invalid JSON"])) ∧
    (c.authorized = false → t ≠ "auth" →
      handle_message env c (InMsg.frame t d)
        = (c, [OutFrame.error_out "not authenticated"])) ∧
    (c.authorized = true →
      t ∉ ["get_documents", "start_stream", "stt_audio", "end_speech",
            "barge_in"] →
      handle_message env c (InMsg.frame t d)
        = (c, [OutFrame.echo t])) := by
  refine ⟨rfl, ?_, ?_⟩
  · intro hauth ht
    rw [handle_message]
    rw [if_pos hauth, if_pos ht]
  · intro hauth hmem
    have h1 : ¬ t = "get_documents" := fun hc => hmem (by rw [hc]; simp)
    have h2 : ¬ t = "start_stream" := fun hc => hmem (by rw [hc]; simp)
    have h3 : ¬ t = "stt_audio" := fun hc => hmem (by rw [hc]; simp)
    have h4 : ¬ t = "end_speech" := fun hc => hmem (by rw [hc]; simp)
    have h5 : ¬ t = "barge_in" := fun hc => hmem (by rw [hc]; simp)
    rw [handle_message]
    rw [if_neg (by rw [hauth]; simp), if_neg h1, if_neg h2, if_neg h3,
      if_neg h4, if_neg h5]

/-- Witness for C9 (amended): the unknown type `"bogus"`, pre-auth on
a fresh connection and post-auth on the mid-reply connection. -/
theorem C9_protocol_error_replies_witness :
    ((Conn.new "o").authorized = false ∧ "bogus" ≠ "auth" ∧
      connMidReply.authorized = true ∧
      "bogus" ∉ ["get_documents", "start_stream", "stt_audio",
        "end_speech", "barge_in"]) ∧
    (handle_message envTest (Conn.new "o")
        (InMsg.frame "bogus" MsgData.empty)
        = (Conn.new "o", [OutFrame.error_out "not authenticated"]) ∧
      handle_message envTest connMidReply
        (InMsg.frame "bogus" MsgData.empty)
        = (connMidReply, [OutFrame.echo "bogus"])) :=
  ⟨⟨rfl, by decide, rfl, by decide⟩,
    (C9_protocol_error_replies envTest (Conn.new "o") "bogus"
      MsgData.empty).2.1 rfl (by decide),
    (C9_protocol_error_replies envTest connMidReply "bogus"
      MsgData.empty).2.2 rfl (by decide)⟩

end VoiceChat
